import Mathlib

/-!
Verification of the 3MF-to-Bambu conversion pipeline (scripts/bambu_3mf.py):
the paint-state encoder, the mesh merger, and the component resolver are
embedded as Lean functions and their specified properties are settled.
-/

set_option maxHeartbeats 1000000

namespace Bambu

/-- Uppercase hexadecimal digits, as used by the Python format(n, "X") call
for single-nibble values. -/
def hexDigits : List Char :=
  ['0', '1', '2', '3', '4', '5', '6', '7', '8', '9', 'A', 'B', 'C', 'D', 'E', 'F']

/-- format(n, "X") for a single nibble value n < 16. -/
def hexChar (n : Nat) : Char := hexDigits.getD n '0'

def hexValAux : List Char → Nat → Char → Nat
  | [], _, _ => 0
  | d :: rest, i, c => if d = c then i else hexValAux rest (i + 1) c

/-- Numeric value of an uppercase hexadecimal digit. -/
def hexVal (c : Char) : Nat := hexValAux hexDigits 0 c

/-- The while-loop of encode_paint_color for states at least 3:
while ext_value >= 15: nibbles.append("F"); ext_value -= 15. -/
def encodeExtLoop (ext : Nat) (nibbles : List Char) : List Char × Nat :=
  if 15 ≤ ext then encodeExtLoop (ext - 15) (nibbles ++ ['F']) else (nibbles, ext)
termination_by ext
decreasing_by omega

/-- encode_paint_color from scripts/bambu_3mf.py: encode a TriangleSelector
state as a Bambu paint_color attribute string. -/
def encode_paint_color (state : Nat) : String :=
  if state = 0 then ""
  else if state ≤ 2 then
    String.mk [hexChar ((state &&& 1) * 4 + ((state >>> 1) &&& 1) * 8)]
  else
    let p := encodeExtLoop (state - 3) ['C']
    String.mk ((p.1 ++ [hexChar p.2]).reverse)

/-- Modelled from the spec: the consuming application's documented leaf
decoding rule, which is not part of this repository.  A single nibble is a
direct leaf whose state is the two high bits; a longer string is un-reversed,
the leading marker C is stripped, and the remaining nibble values are summed
and offset by 3. -/
def decode_paint_color (s : String) : Nat :=
  let cs := s.data
  if cs.length = 0 then 0
  else if cs.length = 1 then hexVal (cs.headD '0') / 4
  else
    match cs.reverse with
    | 'C' :: rest => (rest.map hexVal).sum + 3
    | _ => 0

lemma encodeExtLoop_spec (ext : Nat) :
    ∀ acc : List Char,
      encodeExtLoop ext acc = (acc ++ List.replicate (ext / 15) 'F', ext % 15) := by
  induction ext using Nat.strong_induction_on with
  | _ ext ih =>
    intro acc
    rw [encodeExtLoop]
    by_cases h : 15 ≤ ext
    · rw [if_pos h, ih (ext - 15) (by omega)]
      have hdiv : ext / 15 = (ext - 15) / 15 + 1 := by omega
      have hmod : ext % 15 = (ext - 15) % 15 := by omega
      rw [hdiv, hmod]
      simp [List.replicate_succ, List.append_assoc]
    · rw [if_neg h]
      have hdiv : ext / 15 = 0 := Nat.div_eq_of_lt (by omega)
      have hmod : ext % 15 = ext := Nat.mod_eq_of_lt (by omega)
      rw [hdiv, hmod]
      simp

lemma encode_extended (s : Nat) (h : 3 ≤ s) :
    encode_paint_color s =
      String.mk (('C' :: (List.replicate ((s - 3) / 15) 'F' ++
        [hexChar ((s - 3) % 15)])).reverse) := by
  rw [encode_paint_color, if_neg (by omega), if_neg (by omega),
    encodeExtLoop_spec (s - 3) ['C']]
  simp

lemma hexVal_hexChar (r : Nat) (h : r < 16) : hexVal (hexChar r) = r := by
  interval_cases r <;> decide

lemma decode_encode_extended (s : Nat) (h : 3 ≤ s) :
    decode_paint_color (encode_paint_color s) = s := by
  rw [encode_extended s h, decode_paint_color]
  simp only [String.data]
  rw [List.reverse_reverse]
  have hlen : (('C' :: (List.replicate ((s - 3) / 15) 'F' ++
      [hexChar ((s - 3) % 15)])).reverse).length =
      (s - 3) / 15 + 2 := by simp
  rw [if_neg (by omega), if_neg (by omega)]
  simp only [List.map_append, List.map_replicate, List.sum_append,
    List.sum_replicate, smul_eq_mul, List.map_cons, List.map_nil,
    List.sum_cons, List.sum_nil]
  rw [hexVal_hexChar ((s - 3) % 15) (by omega)]
  have hF : hexVal 'F' = 15 := by decide
  rw [hF]
  omega

lemma decode_encode (s : Nat) : decode_paint_color (encode_paint_color s) = s := by
  match s, Nat.lt_or_ge s 3 with
  | 0, _ => decide
  | 1, _ => decide
  | 2, _ => decide
  | (n + 3), _ => exact decode_encode_extended (n + 3) (by omega)

/-- C1: for every state s at least 3, encode_paint_color returns the reversal
of the character sequence built as a leading marker C, one F for each full 15
contained in ext = s - 3, then one uppercase hex digit for the remaining ext
value; in particular state 3 encodes to "0C" and state 18 to "0FC". -/
theorem C1_extended_encoding :
    (∀ s : Nat, 3 ≤ s →
      encode_paint_color s =
        String.mk (('C' :: (List.replicate ((s - 3) / 15) 'F' ++
          [hexChar ((s - 3) % 15)])).reverse)) ∧
    encode_paint_color 3 = "0C" ∧ encode_paint_color 18 = "0FC" := by
  refine ⟨fun s h => encode_extended s h, ?_, ?_⟩
  · rw [encode_extended 3 (by omega)]; decide
  · rw [encode_extended 18 (by omega)]; decide

theorem C1_extended_encoding_witness :
    encode_paint_color 33 =
      String.mk (('C' :: (List.replicate ((33 - 3) / 15) 'F' ++
        [hexChar ((33 - 3) % 15)])).reverse) :=
  C1_extended_encoding.1 33 (by norm_num)

/-- C2: encode_paint_color returns the empty string for state 0, and for
states 1 and 2 the single uppercase hex digit of the nibble
(s AND 1) * 4 + ((s SHR 1) AND 1) * 8, namely "4" for 1 and "8" for 2. -/
theorem C2_leaf_encoding :
    encode_paint_color 0 = "" ∧
    encode_paint_color 1 = String.mk [hexChar ((1 &&& 1) * 4 + ((1 >>> 1) &&& 1) * 8)] ∧
    encode_paint_color 2 = String.mk [hexChar ((2 &&& 1) * 4 + ((2 >>> 1) &&& 1) * 8)] ∧
    encode_paint_color 1 = "4" ∧
    encode_paint_color 2 = "8" := by decide

/-- C3: decoding the output of encode_paint_color under the documented
decoding rule recovers every non-negative state exactly, and in particular
encode_paint_color is injective over states at least 1. -/
theorem C3_roundtrip_injective :
    (∀ s : Nat, decode_paint_color (encode_paint_color s) = s) ∧
    (∀ s₁ s₂ : Nat, 1 ≤ s₁ → 1 ≤ s₂ →
      encode_paint_color s₁ = encode_paint_color s₂ → s₁ = s₂) := by
  refine ⟨decode_encode, fun s₁ s₂ _ _ h => ?_⟩
  have h₁ := decode_encode s₁
  have h₂ := decode_encode s₂
  rw [← h₁, ← h₂, h]

theorem C3_roundtrip_injective_witness :
    decode_paint_color (encode_paint_color 18) = 18 ∧ (5 : Nat) = 5 :=
  ⟨C3_roundtrip_injective.1 18,
   C3_roundtrip_injective.2 5 5 (by norm_num) (by norm_num) rfl⟩

/-- A vertex position; the source stores three parsed floating point numbers,
modelled here as exact rationals (no arithmetic is ever performed on them). -/
structure Vertex where
  x : ℚ
  y : ℚ
  z : ℚ
deriving DecidableEq

/-- MeshObject from scripts/bambu_3mf.py: a single mesh extracted from the
input 3MF. -/
structure MeshObject where
  name : String
  obj_id : Nat
  vertices : List Vertex
  triangles : List (Nat × Nat × Nat)
  color : String
  transform : String := ""
deriving DecidableEq

/-- The extruder map built by map_colors_to_extruders: a Python dict from hex
color to 1-based extruder number; lookup of a missing key raises KeyError,
modelled as none. -/
abbrev ExtruderMap : Type := String → Option Nat

/-- One Python dict update d[c] = d.get(c, 0) + k on an insertion-ordered
association list: the first entry with key c is incremented in place,
otherwise (c, k) is appended at the end. -/
def bump (m : List (String × Nat)) (c : String) (k : Nat) : List (String × Nat) :=
  match m with
  | [] => [(c, k)]
  | (c₀, n) :: rest => if c₀ = c then (c₀, n + k) :: rest else (c₀, n) :: bump rest c k

/-- The color_tri_count dict of merge_objects_painted: per-color total
triangle count, keys in first-encounter order. -/
def tally (objects : List MeshObject) : List (String × Nat) :=
  objects.foldl (fun m o => bump m o.color o.triangles.length) []

/-- The scan performed by the Python builtin max(d, key=d.get): keep the
current best and replace it only on a strictly larger value. -/
def maxGo (bc : String) (bn : Nat) : List (String × Nat) → String
  | [] => bc
  | (c, n) :: rest => if bn < n then maxGo c n rest else maxGo bc bn rest

/-- max(d, key=d.get) over an insertion-ordered dict; none models the
ValueError raised on an empty dict. -/
def maxByVal : List (String × Nat) → Option String
  | [] => none
  | (c, n) :: rest => some (maxGo c n rest)

/-- The paint_color string attached to every triangle of one source object:
empty for the default extruder, the encoded extruder number otherwise. -/
def pcOf (em : ExtruderMap) (de : Nat) (o : MeshObject) : String :=
  match em o.color with
  | some extn => if extn = de then "" else encode_paint_color extn
  | none => ""

/-- The per-object loop of merge_objects_painted: the offset is read before
the vertices are appended, triangle indices are shifted by it, and one
paint_color entry is appended per triangle.  A missing extruder-map key
(Python KeyError) yields none. -/
def mergeLoop (em : ExtruderMap) (de : Nat) :
    List MeshObject → List Vertex × List (Nat × Nat × Nat) × List String →
    Option (List Vertex × List (Nat × Nat × Nat) × List String)
  | [], st => some st
  | o :: rest, (vs, ts, ps) =>
    match em o.color with
    | none => none
    | some _ =>
      let offset := vs.length
      mergeLoop em de rest
        (vs ++ o.vertices,
         ts ++ o.triangles.map (fun t => (t.1 + offset, t.2.1 + offset, t.2.2 + offset)),
         ps ++ List.replicate o.triangles.length (pcOf em de o))

/-- merge_objects_painted from scripts/bambu_3mf.py: merge multiple objects
into a single mesh with per-triangle paint_color.  none models the ValueError
raised by max on an empty input sequence and the KeyError raised by a lookup
of a color absent from the extruder map. -/
def merge_objects_painted (objects : List MeshObject) (em : ExtruderMap) :
    Option (MeshObject × List String × Nat) :=
  match maxByVal (tally objects) with
  | none => none
  | some default_color =>
    match em default_color with
    | none => none
    | some default_extruder =>
      match mergeLoop em default_extruder objects ([], [], []) with
      | none => none
      | some (vs, ts, ps) =>
        some ({ name := "merged", obj_id := 1, vertices := vs, triangles := ts,
                color := default_color,
                transform := ((objects.head?).map (fun o => o.transform)).getD "" },
          ps, default_extruder)

/-- Total triangle count of one color over a whole object sequence. -/
def colorTotal (objects : List MeshObject) (c : String) : Nat :=
  (objects.map (fun o => if o.color = c then o.triangles.length else 0)).sum

/-- Index of the first occurrence of a string in a list (length if absent). -/
def idxOf (x : String) : List String → Nat
  | [] => 0
  | c :: rest => if c = x then 0 else idxOf x rest + 1

/-- First occurrences of a string list, kept in encounter order. -/
def dedupFirst : List String → List String
  | [] => []
  | c :: rest => c :: dedupFirst (rest.filter (fun x => x ≠ c))
termination_by l => l.length
decreasing_by
  simp only [List.length_cons]
  exact Nat.lt_succ_of_le (List.length_filter_le _ _)

lemma colorTotal_nil (c : String) : colorTotal [] c = 0 := rfl

lemma colorTotal_cons (o : MeshObject) (rest : List MeshObject) (c : String) :
    colorTotal (o :: rest) c =
      (if o.color = c then o.triangles.length else 0) + colorTotal rest c := by
  simp [colorTotal]

lemma bump_of_mem : ∀ (m : List (String × Nat)) (c : String) (k : Nat),
    (m.map Prod.fst).Nodup → c ∈ m.map Prod.fst →
    bump m c k = m.map (fun p => if p.1 = c then (p.1, p.2 + k) else p)
  | [], c, k, _, hc => by simp at hc
  | (c₀, n) :: rest, c, k, hnd, hc => by
    simp only [List.map_cons, List.nodup_cons] at hnd
    by_cases h : c₀ = c
    · subst h
      rw [bump, if_pos rfl]
      simp only [List.map_cons, if_pos rfl]
      congr 1
      conv_lhs => rw [← List.map_id rest]
      apply List.map_congr_left
      intro p hp
      have hne : p.1 ≠ c₀ := fun he => hnd.1 (he ▸ List.mem_map_of_mem Prod.fst hp)
      simp [hne]
    · have hc' : c ∈ rest.map Prod.fst := by
        rcases List.mem_cons.1 hc with h0 | h0
        · exact absurd h0.symm h
        · exact h0
      rw [bump, if_neg h, bump_of_mem rest c k hnd.2 hc']
      simp [h]

lemma bump_of_not_mem : ∀ (m : List (String × Nat)) (c : String) (k : Nat),
    c ∉ m.map Prod.fst → bump m c k = m ++ [(c, k)]
  | [], c, k, _ => rfl
  | (c₀, n) :: rest, c, k, hc => by
    simp only [List.map_cons, List.mem_cons, not_or] at hc
    rw [bump, if_neg (fun h => hc.1 h.symm), bump_of_not_mem rest c k hc.2]
    simp

lemma keys_bump (m : List (String × Nat)) (c : String) (k : Nat)
    (hnd : (m.map Prod.fst).Nodup) :
    (bump m c k).map Prod.fst =
      if c ∈ m.map Prod.fst then m.map Prod.fst else m.map Prod.fst ++ [c] := by
  by_cases hc : c ∈ m.map Prod.fst
  · rw [if_pos hc, bump_of_mem m c k hnd hc, List.map_map]
    apply List.map_congr_left
    intro p _
    by_cases h : p.1 = c <;> simp [h]
  · rw [if_neg hc, bump_of_not_mem m c k hc]
    simp

lemma keys_bump_nodup (m : List (String × Nat)) (c : String) (k : Nat)
    (hnd : (m.map Prod.fst).Nodup) : ((bump m c k).map Prod.fst).Nodup := by
  rw [keys_bump m c k hnd]
  by_cases hc : c ∈ m.map Prod.fst
  · rwa [if_pos hc]
  · rw [if_neg hc]
    simp [List.nodup_append, hnd, hc]

lemma mem_dedupFirst_aux : ∀ (n : Nat) (l : List String), l.length ≤ n →
    ∀ x, (x ∈ dedupFirst l ↔ x ∈ l)
  | _, [], _, x => by rw [dedupFirst]
  | 0, c :: rest, h, x => by simp at h
  | n + 1, c :: rest, h, x => by
    rw [dedupFirst]
    have hlen : (rest.filter (fun x => x ≠ c)).length ≤ n :=
      le_trans (List.length_filter_le _ _) (by simpa using h)
    have ih := mem_dedupFirst_aux n (rest.filter (fun x => x ≠ c)) hlen x
    constructor
    · intro hx
      rcases List.mem_cons.1 hx with rfl | hx
      · exact List.mem_cons_self _ _
      · exact List.mem_cons_of_mem _ (List.mem_of_mem_filter (ih.1 hx))
    · intro hx
      rcases List.mem_cons.1 hx with rfl | hx
      · exact List.mem_cons_self _ _
      · by_cases hxc : x = c
        · subst hxc; exact List.mem_cons_self _ _
        · refine List.mem_cons_of_mem _ (ih.2 ?_)
          rw [List.mem_filter]
          exact ⟨hx, by simpa using hxc⟩

lemma mem_dedupFirst (l : List String) (x : String) : x ∈ dedupFirst l ↔ x ∈ l :=
  mem_dedupFirst_aux l.length l le_rfl x

/-- Closed form of the color_tri_count fold: existing entries are incremented
by their total over the remaining objects, new colors are appended in
first-encounter order with their totals. -/
lemma tally_closed : ∀ (objs : List MeshObject) (m : List (String × Nat)),
    (m.map Prod.fst).Nodup →
    objs.foldl (fun m o => bump m o.color o.triangles.length) m =
      m.map (fun p => (p.1, p.2 + colorTotal objs p.1)) ++
      (dedupFirst ((objs.map (fun o => o.color)).filter
        (fun c => ¬ c ∈ m.map Prod.fst))).map (fun c => (c, colorTotal objs c))
  | [], m, hnd => by
    simp [colorTotal_nil, dedupFirst]
  | o :: rest, m, hnd => by
    rw [List.foldl_cons,
      tally_closed rest (bump m o.color o.triangles.length) (keys_bump_nodup _ _ _ hnd)]
    by_cases hc : o.color ∈ m.map Prod.fst
    · have hkeys : (bump m o.color o.triangles.length).map Prod.fst = m.map Prod.fst := by
        rw [keys_bump _ _ _ hnd, if_pos hc]
      have hmap1 : (bump m o.color o.triangles.length).map
          (fun p => (p.1, p.2 + colorTotal rest p.1)) =
          m.map (fun p => (p.1, p.2 + colorTotal (o :: rest) p.1)) := by
        rw [bump_of_mem m _ _ hnd hc, List.map_map]
        apply List.map_congr_left
        intro p _
        simp only [Function.comp_apply]
        by_cases hp : p.1 = o.color
        · have hop : o.color = p.1 := hp.symm
          rw [if_pos hp, colorTotal_cons, if_pos hop]
          simp [Nat.add_assoc]
        · have hop : ¬ o.color = p.1 := fun h => hp h.symm
          rw [if_neg hp, colorTotal_cons, if_neg hop]
          simp
      have hfilt : ((o :: rest).map (fun o => o.color)).filter
          (fun c => ¬ c ∈ m.map Prod.fst) =
          (rest.map (fun o => o.color)).filter (fun c => ¬ c ∈ m.map Prod.fst) := by
        rw [List.map_cons, List.filter_cons]
        simp [hc]
      have hmap2 : (dedupFirst ((rest.map (fun o => o.color)).filter
            (fun c => ¬ c ∈ m.map Prod.fst))).map (fun c => (c, colorTotal rest c)) =
          (dedupFirst ((rest.map (fun o => o.color)).filter
            (fun c => ¬ c ∈ m.map Prod.fst))).map (fun c => (c, colorTotal (o :: rest) c)) := by
        apply List.map_congr_left
        intro c hcd
        have hcf := (mem_dedupFirst _ _).1 hcd
        have hcp := List.of_mem_filter hcf
        have hcm : ¬ c ∈ m.map Prod.fst := by simpa using hcp
        have hne : ¬ o.color = c := fun he => hcm (he ▸ hc)
        rw [colorTotal_cons, if_neg hne, Nat.zero_add]
      simp only [hkeys]
      rw [hmap1, hfilt, hmap2]
    · have hbump := bump_of_not_mem m o.color o.triangles.length hc
      have hkeys : (bump m o.color o.triangles.length).map Prod.fst =
          m.map Prod.fst ++ [o.color] := by
        rw [keys_bump _ _ _ hnd, if_neg hc]
      have hfilt : ((o :: rest).map (fun o => o.color)).filter
          (fun c => ¬ c ∈ m.map Prod.fst) =
          o.color :: (rest.map (fun o => o.color)).filter
            (fun c => ¬ c ∈ m.map Prod.fst) := by
        rw [List.map_cons, List.filter_cons]
        simp [hc]
      simp only [hkeys]
      rw [hbump, hfilt, dedupFirst]
      have hfilt2 : ((rest.map (fun o => o.color)).filter
            (fun c => ¬ c ∈ m.map Prod.fst)).filter (fun x => x ≠ o.color) =
          (rest.map (fun o => o.color)).filter
            (fun c => ¬ c ∈ m.map Prod.fst ++ [o.color]) := by
        rw [List.filter_filter]
        apply List.filter_congr
        intro a _
        by_cases h1 : a = o.color <;> by_cases h2 : a ∈ m.map Prod.fst <;>
          simp [h1, h2, List.mem_append]
      rw [← hfilt2]
      simp only [List.map_append, List.map_cons, List.map_nil, List.map_map]
      have hm1 : m.map ((fun p => (p.1, p.2 + colorTotal rest p.1))) =
          m.map (fun p => (p.1, p.2 + colorTotal (o :: rest) p.1)) := by
        apply List.map_congr_left
        intro p hp
        have hne : ¬ o.color = p.1 :=
          fun he => hc (he ▸ List.mem_map_of_mem Prod.fst hp)
        rw [colorTotal_cons, if_neg hne, Nat.zero_add]
      have hm2 : (o.color, o.triangles.length + colorTotal rest o.color) =
          (o.color, colorTotal (o :: rest) o.color) := by
        rw [colorTotal_cons, if_pos rfl]
      have hm3 : (dedupFirst (((rest.map (fun o => o.color)).filter
            (fun c => ¬ c ∈ m.map Prod.fst)).filter (fun x => x ≠ o.color))).map
            (fun c => (c, colorTotal rest c)) =
          (dedupFirst (((rest.map (fun o => o.color)).filter
            (fun c => ¬ c ∈ m.map Prod.fst)).filter (fun x => x ≠ o.color))).map
            (fun c => (c, colorTotal (o :: rest) c)) := by
        apply List.map_congr_left
        intro c hcd
        have hcf := (mem_dedupFirst _ _).1 hcd
        have hcp := List.of_mem_filter hcf
        have hne : ¬ o.color = c := by
          intro he
          rw [decide_eq_true_eq] at hcp
          exact hcp he.symm
        rw [colorTotal_cons, if_neg hne, Nat.zero_add]
      rw [hm3, hm1, hm2]
      simp [List.append_assoc]

/-- tally computes, in first-encounter order, each color with its total
triangle count. -/
lemma tally_eq (objs : List MeshObject) :
    tally objs = (dedupFirst (objs.map (fun o => o.color))).map
      (fun c => (c, colorTotal objs c)) := by
  rw [tally, tally_closed objs [] (by simp)]
  simp only [List.map_nil, List.nil_append]
  have h : (objs.map (fun o => o.color)).filter
      (fun c => ¬ c ∈ ([] : List String)) = objs.map (fun o => o.color) :=
    List.filter_eq_self.2 (fun a _ => by simp)
  rw [h]

/-- The Python max scan keeps the first element achieving the maximum: the
result is either the initial candidate with everything at most its value, or
some position whose value beats the initial one, strictly dominates all
earlier positions, and weakly dominates all positions. -/
lemma maxGo_spec : ∀ (l : List (String × Nat)) (bc : String) (bn : Nat),
    (maxGo bc bn l = bc ∧ ∀ p ∈ l, p.2 ≤ bn) ∨
    (∃ (i : Nat) (hi : i < l.length),
      l[i].1 = maxGo bc bn l ∧ bn < l[i].2 ∧
      (∀ (j : Nat) (hj : j < l.length), j < i → l[j].2 < l[i].2) ∧
      (∀ (j : Nat) (hj : j < l.length), l[j].2 ≤ l[i].2))
  | [], bc, bn => Or.inl ⟨rfl, by simp⟩
  | (c, n) :: rest, bc, bn => by
    rw [maxGo]
    by_cases h : bn < n
    · rw [if_pos h]
      rcases maxGo_spec rest c n with ⟨heq, hall⟩ | ⟨i, hi, heq, hlt, hearly, hall⟩
      · refine Or.inr ⟨0, by simp, ?_, ?_, ?_, ?_⟩
        · simpa using heq.symm
        · simpa using h
        · intro j hj hj0; omega
        · intro j hj
          cases j with
          | zero => simp
          | succ j' =>
            simp only [List.getElem_cons_succ, List.getElem_cons_zero]
            exact hall _ (List.getElem_mem (by simpa using hj))
      · refine Or.inr ⟨i + 1, by simpa using hi, ?_, ?_, ?_, ?_⟩
        · simpa using heq
        · simp only [List.getElem_cons_succ]; omega
        · intro j hj hji
          cases j with
          | zero => simp only [List.getElem_cons_succ, List.getElem_cons_zero]; omega
          | succ j' =>
            simp only [List.getElem_cons_succ]
            exact hearly j' (by simpa using hj) (by omega)
        · intro j hj
          cases j with
          | zero => simp only [List.getElem_cons_succ, List.getElem_cons_zero]; omega
          | succ j' =>
            simp only [List.getElem_cons_succ]
            exact hall j' (by simpa using hj)
    · rw [if_neg h]
      rcases maxGo_spec rest bc bn with ⟨heq, hall⟩ | ⟨i, hi, heq, hlt, hearly, hall⟩
      · refine Or.inl ⟨heq, ?_⟩
        intro p hp
        rcases List.mem_cons.1 hp with rfl | hp
        · simp only []; omega
        · exact hall p hp
      · refine Or.inr ⟨i + 1, by simpa using hi, ?_, ?_, ?_, ?_⟩
        · simpa using heq
        · simp only [List.getElem_cons_succ]; omega
        · intro j hj hji
          cases j with
          | zero => simp only [List.getElem_cons_succ, List.getElem_cons_zero]; omega
          | succ j' =>
            simp only [List.getElem_cons_succ]
            exact hearly j' (by simpa using hj) (by omega)
        · intro j hj
          cases j with
          | zero => simp only [List.getElem_cons_succ, List.getElem_cons_zero]; omega
          | succ j' =>
            simp only [List.getElem_cons_succ]
            exact hall j' (by simpa using hj)

/-- Specification of max(d, key=d.get): the returned key sits at a position
whose value strictly dominates all earlier positions and weakly dominates
all positions. -/
lemma maxByVal_spec (l : List (String × Nat)) (dc : String)
    (h : maxByVal l = some dc) :
    ∃ (i : Nat) (hi : i < l.length), l[i].1 = dc ∧
      (∀ (j : Nat) (hj : j < l.length), j < i → l[j].2 < l[i].2) ∧
      (∀ (j : Nat) (hj : j < l.length), l[j].2 ≤ l[i].2) := by
  match l, h with
  | (c, n) :: rest, h =>
    have hdc : maxGo c n rest = dc := by
      rw [maxByVal] at h
      exact Option.some.inj h
    rcases maxGo_spec rest c n with ⟨heq, hall⟩ | ⟨i, hi, heq, hlt, hearly, hall⟩
    · refine ⟨0, by simp, by simp [← hdc, heq], ?_, ?_⟩
      · intro j hj hj0; omega
      · intro j hj
        cases j with
        | zero => simp
        | succ j' =>
          simp only [List.getElem_cons_succ, List.getElem_cons_zero]
          exact hall _ (List.getElem_mem (by simpa using hj))
    · refine ⟨i + 1, by simpa using hi, by simpa [hdc] using heq, ?_, ?_⟩
      · intro j hj hji
        cases j with
        | zero => simp only [List.getElem_cons_succ, List.getElem_cons_zero]; omega
        | succ j' =>
          simp only [List.getElem_cons_succ]
          exact hearly j' (by simpa using hj) (by omega)
      · intro j hj
        cases j with
        | zero => simp only [List.getElem_cons_succ, List.getElem_cons_zero]; omega
        | succ j' =>
          simp only [List.getElem_cons_succ]
          exact hall j' (by simpa using hj)

/-- Filtering preserves the relative order of first occurrences. -/
lemma idxOf_filter_lt : ∀ (l : List String) (p : String → Bool) (x y : String),
    x ∈ l.filter p → y ∈ l.filter p →
    idxOf x (l.filter p) < idxOf y (l.filter p) → idxOf x l < idxOf y l
  | [], p, x, y, hx, hy, hlt => by simp at hx
  | c :: rest, p, x, y, hx, hy, hlt => by
    rw [List.filter_cons] at hx hy hlt
    by_cases hp : p c
    · rw [if_pos hp] at hx hy hlt
      by_cases hxc : c = x
      · subst hxc
        have hyc : ¬ c = y := by
          intro hcy
          subst hcy
          exact absurd hlt (lt_irrefl _)
        have h1 : idxOf c (c :: rest) = 0 := by rw [idxOf, if_pos rfl]
        have h2 : idxOf y (c :: rest) = idxOf y rest + 1 := by
          rw [idxOf, if_neg hyc]
        rw [h1, h2]
        omega
      · have hyc : ¬ c = y := by
          intro hcy
          subst hcy
          have h0 : idxOf c (c :: rest.filter p) = 0 := by rw [idxOf, if_pos rfl]
          rw [h0] at hlt
          omega
        have hx' : x ∈ rest.filter p := by
          rcases List.mem_cons.1 hx with h0 | h0
          · exact absurd h0.symm hxc
          · exact h0
        have hy' : y ∈ rest.filter p := by
          rcases List.mem_cons.1 hy with h0 | h0
          · exact absurd h0.symm hyc
          · exact h0
        have hx0 : idxOf x (c :: rest.filter p) = idxOf x (rest.filter p) + 1 := by
          rw [idxOf, if_neg hxc]
        have hy0 : idxOf y (c :: rest.filter p) = idxOf y (rest.filter p) + 1 := by
          rw [idxOf, if_neg hyc]
        rw [hx0, hy0] at hlt
        have hx1 : idxOf x (c :: rest) = idxOf x rest + 1 := by
          rw [idxOf, if_neg hxc]
        have hy1 : idxOf y (c :: rest) = idxOf y rest + 1 := by
          rw [idxOf, if_neg hyc]
        rw [hx1, hy1]
        have := idxOf_filter_lt rest p x y hx' hy' (by omega)
        omega
    · rw [if_neg hp] at hx hy hlt
      have hxp := List.of_mem_filter hx
      have hyp := List.of_mem_filter hy
      have hxc : ¬ c = x := by
        intro h0
        rw [← h0] at hxp
        rw [hxp] at hp
        exact hp rfl
      have hyc : ¬ c = y := by
        intro h0
        rw [← h0] at hyp
        rw [hyp] at hp
        exact hp rfl
      have hx1 : idxOf x (c :: rest) = idxOf x rest + 1 := by
        rw [idxOf, if_neg hxc]
      have hy1 : idxOf y (c :: rest) = idxOf y rest + 1 := by
        rw [idxOf, if_neg hyc]
      rw [hx1, hy1]
      have := idxOf_filter_lt rest p x y hx hy hlt
      omega

/-- Positions in dedupFirst respect first-occurrence order in the source. -/
lemma dedupFirst_idxOf_mono_aux : ∀ (n : Nat) (l : List String), l.length ≤ n →
    ∀ (i j : Nat) (hi : i < (dedupFirst l).length) (hj : j < (dedupFirst l).length),
      i < j → idxOf ((dedupFirst l)[i]) l < idxOf ((dedupFirst l)[j]) l
  | _, [], _, i, j, hi, hj, hij => by
    rw [dedupFirst] at hi
    simp at hi
  | 0, c :: rest, h, i, j, hi, hj, hij => by simp at h
  | n + 1, c :: rest, h, i, j, hi, hj, hij => by
    have hD : dedupFirst (c :: rest) =
        c :: dedupFirst (rest.filter (fun x => x ≠ c)) := by rw [dedupFirst]
    simp only [hD] at hi hj ⊢
    cases i with
    | zero =>
      cases j with
      | zero => omega
      | succ j' =>
        simp only [List.getElem_cons_zero, List.getElem_cons_succ]
        have hj' : j' < (dedupFirst (rest.filter (fun x => x ≠ c))).length := by
          simpa using hj
        have hmem : (dedupFirst (rest.filter (fun x => x ≠ c)))[j'] ∈
            rest.filter (fun x => x ≠ c) :=
          (mem_dedupFirst _ _).1 (List.getElem_mem hj')
        have hne : ¬ c = (dedupFirst (rest.filter (fun x => x ≠ c)))[j'] := by
          intro h0
          have := List.of_mem_filter hmem
          rw [← h0] at this
          simp at this
        have h1 : idxOf c (c :: rest) = 0 := by rw [idxOf, if_pos rfl]
        have h2 : idxOf ((dedupFirst (rest.filter (fun x => x ≠ c)))[j']) (c :: rest) =
            idxOf ((dedupFirst (rest.filter (fun x => x ≠ c)))[j']) rest + 1 := by
          rw [idxOf, if_neg hne]
        rw [h1, h2]
        omega
    | succ i' =>
      cases j with
      | zero => omega
      | succ j' =>
        simp only [List.getElem_cons_succ]
        have hi' : i' < (dedupFirst (rest.filter (fun x => x ≠ c))).length := by
          simpa using hi
        have hj' : j' < (dedupFirst (rest.filter (fun x => x ≠ c))).length := by
          simpa using hj
        have hxmem : (dedupFirst (rest.filter (fun x => x ≠ c)))[i'] ∈
            rest.filter (fun x => x ≠ c) :=
          (mem_dedupFirst _ _).1 (List.getElem_mem hi')
        have hymem : (dedupFirst (rest.filter (fun x => x ≠ c)))[j'] ∈
            rest.filter (fun x => x ≠ c) :=
          (mem_dedupFirst _ _).1 (List.getElem_mem hj')
        have hxc : ¬ c = (dedupFirst (rest.filter (fun x => x ≠ c)))[i'] := by
          intro h0
          have := List.of_mem_filter hxmem
          rw [← h0] at this
          simp at this
        have hyc : ¬ c = (dedupFirst (rest.filter (fun x => x ≠ c)))[j'] := by
          intro h0
          have := List.of_mem_filter hymem
          rw [← h0] at this
          simp at this
        have h1 : idxOf ((dedupFirst (rest.filter (fun x => x ≠ c)))[i']) (c :: rest) =
            idxOf ((dedupFirst (rest.filter (fun x => x ≠ c)))[i']) rest + 1 := by
          rw [idxOf, if_neg hxc]
        have h2 : idxOf ((dedupFirst (rest.filter (fun x => x ≠ c)))[j']) (c :: rest) =
            idxOf ((dedupFirst (rest.filter (fun x => x ≠ c)))[j']) rest + 1 := by
          rw [idxOf, if_neg hyc]
        rw [h1, h2]
        have hlen : (rest.filter (fun x => x ≠ c)).length ≤ n :=
          le_trans (List.length_filter_le _ _) (by simpa using h)
        have hrec := dedupFirst_idxOf_mono_aux n (rest.filter (fun x => x ≠ c))
          hlen i' j' hi' hj' (by omega)
        have := idxOf_filter_lt rest _ _ _ hxmem hymem hrec
        omega

lemma dedupFirst_idxOf_mono (l : List String) (i j : Nat)
    (hi : i < (dedupFirst l).length) (hj : j < (dedupFirst l).length)
    (hij : i < j) :
    idxOf ((dedupFirst l)[i]) l < idxOf ((dedupFirst l)[j]) l :=
  dedupFirst_idxOf_mono_aux l.length l le_rfl i j hi hj hij

lemma bump_ne_nil (m : List (String × Nat)) (c : String) (k : Nat) :
    bump m c k ≠ [] := by
  match m with
  | [] => simp [bump]
  | (c₀, n) :: rest =>
    rw [bump]
    by_cases h : c₀ = c <;> simp [h]

lemma foldl_bump_ne_nil : ∀ (objs : List MeshObject) (m : List (String × Nat)),
    m ≠ [] → objs.foldl (fun m o => bump m o.color o.triangles.length) m ≠ []
  | [], m, hm => hm
  | o :: rest, m, hm =>
    foldl_bump_ne_nil rest _ (bump_ne_nil m o.color o.triangles.length)

lemma tally_ne_nil (objects : List MeshObject) (h : objects ≠ []) :
    tally objects ≠ [] := by
  match objects with
  | o :: rest =>
    rw [tally, List.foldl_cons]
    exact foldl_bump_ne_nil rest _ (bump_ne_nil [] o.color o.triangles.length)

lemma maxByVal_isSome (l : List (String × Nat)) (h : l ≠ []) :
    ∃ c, maxByVal l = some c := by
  match l with
  | (c, n) :: rest => exact ⟨maxGo c n rest, rfl⟩

/-- The key returned by maxByVal is a key of the list. -/
lemma maxByVal_mem (l : List (String × Nat)) (dc : String)
    (h : maxByVal l = some dc) : dc ∈ l.map Prod.fst := by
  obtain ⟨i, hi, heq, -, -⟩ := maxByVal_spec l dc h
  rw [← heq]
  exact List.mem_map_of_mem Prod.fst (List.getElem_mem hi)

/-- A positive paint state always encodes to a non-empty string. -/
lemma encode_pos_ne_empty (s : Nat) (h : 1 ≤ s) : encode_paint_color s ≠ "" := by
  match s, h with
  | 1, _ => decide
  | 2, _ => decide
  | (n + 3), _ =>
    rw [encode_extended (n + 3) (by omega)]
    intro he
    have h0 : ("" : String) = String.mk [] := rfl
    rw [h0] at he
    have hdata := congrArg String.data he
    simp at hdata

/-- The accumulator-passing specification of the merge loop: it appends the
input vertices, the offset-shifted triangles, and one paint string per
triangle, and preserves index validity relative to the final vertex count. -/
lemma mergeLoop_spec (em : ExtruderMap) (de : Nat) :
    ∀ (objs : List MeshObject) (vs : List Vertex) (ts : List (Nat × Nat × Nat))
      (ps : List String),
      (∀ o ∈ objs, (em o.color).isSome) →
      ∃ V T, mergeLoop em de objs (vs, ts, ps) =
          some (vs ++ V, ts ++ T,
            ps ++ objs.flatMap (fun o => List.replicate o.triangles.length (pcOf em de o))) ∧
        V.length = (objs.map (fun o => o.vertices.length)).sum ∧
        T.length = (objs.map (fun o => o.triangles.length)).sum ∧
        ((∀ o ∈ objs, ∀ t ∈ o.triangles,
            t.1 < o.vertices.length ∧ t.2.1 < o.vertices.length ∧
            t.2.2 < o.vertices.length) →
          ∀ t ∈ T, t.1 < vs.length + V.length ∧ t.2.1 < vs.length + V.length ∧
            t.2.2 < vs.length + V.length)
  | [], vs, ts, ps, _ => by
    refine ⟨[], [], ?_, rfl, rfl, ?_⟩
    · simp [mergeLoop]
    · intro _ t ht
      simp at ht
  | o :: rest, vs, ts, ps, hcov => by
    obtain ⟨e, he⟩ := Option.isSome_iff_exists.1 (hcov o (List.mem_cons_self o rest))
    have hcov' : ∀ o ∈ rest, (em o.color).isSome :=
      fun o ho => hcov o (List.mem_cons_of_mem _ ho)
    obtain ⟨V₁, T₁, heq, hV, hT, hB⟩ :=
      mergeLoop_spec em de rest
        (vs ++ o.vertices)
        (ts ++ o.triangles.map (fun t =>
          (t.1 + vs.length, t.2.1 + vs.length, t.2.2 + vs.length)))
        (ps ++ List.replicate o.triangles.length (pcOf em de o)) hcov'
    refine ⟨o.vertices ++ V₁,
      o.triangles.map (fun t =>
        (t.1 + vs.length, t.2.1 + vs.length, t.2.2 + vs.length)) ++ T₁,
      ?_, ?_, ?_, ?_⟩
    · rw [mergeLoop, he]
      simp only [List.flatMap_cons]
      rw [heq]
      simp [List.append_assoc]
    · simp [hV]
    · simp [hT]
    · intro hidx t ht
      rcases List.mem_append.1 ht with ht | ht
      · obtain ⟨t₀, hmem, rfl⟩ := List.mem_map.1 ht
        obtain ⟨h1, h2, h3⟩ := hidx o (List.mem_cons_self o rest) t₀ hmem
        simp only [List.length_append]
        refine ⟨by omega, by omega, by omega⟩
      · have hidx' : ∀ o ∈ rest, ∀ t ∈ o.triangles,
            t.1 < o.vertices.length ∧ t.2.1 < o.vertices.length ∧
            t.2.2 < o.vertices.length :=
          fun o ho => hidx o (List.mem_cons_of_mem _ ho)
        have := hB hidx' t ht
        simp only [List.length_append] at this ⊢
        exact ⟨by omega, by omega, by omega⟩

lemma length_flatMap_replicate (objs : List MeshObject) (f : MeshObject → String) :
    (objs.flatMap (fun o => List.replicate o.triangles.length (f o))).length =
      (objs.map (fun o => o.triangles.length)).sum := by
  induction objs with
  | nil => rfl
  | cons o rest ih => simp [List.flatMap_cons, ih]

/-- C4: for every non-empty object sequence with valid triangle indices and
an extruder map covering its colors, merge_objects_painted returns a merged
mesh whose vertex count is the sum of the input vertex counts, whose triangle
count is the sum of the input triangle counts, in which every merged triangle
index is below the merged vertex count, with exactly one paint-state string
per merged triangle. -/
theorem C4_merge_invariants (objects : List MeshObject) (em : ExtruderMap)
    (hne : objects ≠ [])
    (hidx : ∀ o ∈ objects, ∀ t ∈ o.triangles,
      t.1 < o.vertices.length ∧ t.2.1 < o.vertices.length ∧
      t.2.2 < o.vertices.length)
    (hcov : ∀ o ∈ objects, (em o.color).isSome) :
    ∃ merged paints de, merge_objects_painted objects em = some (merged, paints, de) ∧
      merged.vertices.length = (objects.map (fun o => o.vertices.length)).sum ∧
      merged.triangles.length = (objects.map (fun o => o.triangles.length)).sum ∧
      (∀ t ∈ merged.triangles, t.1 < merged.vertices.length ∧
        t.2.1 < merged.vertices.length ∧ t.2.2 < merged.vertices.length) ∧
      paints.length = merged.triangles.length := by
  obtain ⟨dc, hdc⟩ := maxByVal_isSome _ (tally_ne_nil objects hne)
  have hdcmem : dc ∈ (tally objects).map Prod.fst := maxByVal_mem _ _ hdc
  have hdccolor : dc ∈ objects.map (fun o => o.color) := by
    rw [tally_eq, List.map_map] at hdcmem
    have hkeys : (dedupFirst (objects.map fun o => o.color)).map
        (Prod.fst ∘ fun c => (c, colorTotal objects c)) =
        dedupFirst (objects.map fun o => o.color) := by
      conv_rhs => rw [← List.map_id (dedupFirst (objects.map fun o => o.color))]
      apply List.map_congr_left
      intro c _
      rfl
    rw [hkeys] at hdcmem
    exact (mem_dedupFirst _ _).1 hdcmem
  obtain ⟨o₀, ho₀, ho₀c⟩ := List.mem_map.1 hdccolor
  obtain ⟨de, hde⟩ := Option.isSome_iff_exists.1 (ho₀c ▸ hcov o₀ ho₀)
  obtain ⟨V, T, heq, hV, hT, hB⟩ := mergeLoop_spec em de objects [] [] [] hcov
  simp only [List.nil_append] at heq
  have hmerge : merge_objects_painted objects em =
      some ({ name := "merged", obj_id := 1, vertices := V, triangles := T,
              color := dc,
              transform := ((objects.head?).map (fun o => o.transform)).getD "" },
        objects.flatMap (fun o => List.replicate o.triangles.length (pcOf em de o)),
        de) := by
    simp only [merge_objects_painted, hdc, hde, heq]
  refine ⟨_, _, de, hmerge, ?_, ?_, ?_, ?_⟩
  · exact hV
  · exact hT
  · intro t ht
    have := hB hidx t ht
    simpa using this
  · show (objects.flatMap
      (fun o => List.replicate o.triangles.length (pcOf em de o))).length = T.length
    rw [length_flatMap_replicate, hT]

/-- A two-object example: one red triangle object, one green two-triangle
object. -/
def wObjA : MeshObject :=
  { name := "a", obj_id := 2,
    vertices := [⟨0, 0, 0⟩, ⟨1, 0, 0⟩, ⟨0, 1, 0⟩],
    triangles := [(0, 1, 2)], color := "#ff0000", transform := "" }

def wObjB : MeshObject :=
  { name := "b", obj_id := 3,
    vertices := [⟨0, 0, 0⟩, ⟨1, 0, 0⟩, ⟨0, 0, 1⟩],
    triangles := [(0, 1, 2), (0, 2, 1)], color := "#00ff00", transform := "" }

def wEm : ExtruderMap := fun c =>
  if c = "#ff0000" then some 1 else if c = "#00ff00" then some 2 else none

theorem C4_merge_invariants_witness :
    ([wObjA, wObjB] : List MeshObject) ≠ [] ∧
    (∃ merged paints de,
      merge_objects_painted [wObjA, wObjB] wEm = some (merged, paints, de) ∧
      merged.vertices.length = 6 ∧ merged.triangles.length = 3 ∧
      (∀ t ∈ merged.triangles, t.1 < merged.vertices.length ∧
        t.2.1 < merged.vertices.length ∧ t.2.2 < merged.vertices.length) ∧
      paints.length = merged.triangles.length) := by
  refine ⟨by simp, ?_⟩
  obtain ⟨merged, paints, de, h1, h2, h3, h4, h5⟩ :=
    C4_merge_invariants [wObjA, wObjB] wEm (by simp) (by decide) (by decide)
  exact ⟨merged, paints, de, h1, by simpa [wObjA, wObjB] using h2,
    by simpa [wObjA, wObjB] using h3, h4, h5⟩

/-- C5: merge_objects_painted selects as default the color with the largest
total triangle count over all objects, ties resolved in favor of the color
first encountered in object order, and each merged triangle carries the
non-empty string encode_paint_color of its source object slot exactly when
that slot differs from the default slot, and the empty string otherwise. -/
theorem C5_default_selection_and_paints (objects : List MeshObject)
    (em : ExtruderMap) (hne : objects ≠ [])
    (hcov : ∀ o ∈ objects, (em o.color).isSome)
    (hpos : ∀ c n, em c = some n → 1 ≤ n) :
    ∃ merged paints de,
      merge_objects_painted objects em = some (merged, paints, de) ∧
      em merged.color = some de ∧
      merged.color ∈ objects.map (fun o => o.color) ∧
      (∀ o ∈ objects,
        colorTotal objects o.color ≤ colorTotal objects merged.color) ∧
      (∀ o ∈ objects,
        colorTotal objects o.color = colorTotal objects merged.color →
        idxOf merged.color (objects.map (fun o => o.color)) ≤
          idxOf o.color (objects.map (fun o => o.color))) ∧
      paints = objects.flatMap
        (fun o => List.replicate o.triangles.length (pcOf em de o)) ∧
      (∀ o ∈ objects, ∀ s, em o.color = some s →
        (s ≠ de → pcOf em de o = encode_paint_color s ∧
          encode_paint_color s ≠ "") ∧
        (s = de → pcOf em de o = "")) := by
  obtain ⟨dc, hdc0⟩ := maxByVal_isSome _ (tally_ne_nil objects hne)
  have hdc := hdc0
  rw [tally_eq] at hdc
  obtain ⟨i, hi, hi1, hearly, hall⟩ := maxByVal_spec _ _ hdc
  simp only [List.getElem_map, List.length_map] at hi hi1 hearly hall
  have hdcmem : dc ∈ objects.map (fun o => o.color) := by
    rw [← hi1]
    exact (mem_dedupFirst _ _).1 (List.getElem_mem hi)
  obtain ⟨o₀, ho₀, ho₀c⟩ := List.mem_map.1 hdcmem
  obtain ⟨de, hde⟩ := Option.isSome_iff_exists.1 (ho₀c ▸ hcov o₀ ho₀)
  obtain ⟨V, T, heq, hV, hT, hB⟩ := mergeLoop_spec em de objects [] [] [] hcov
  simp only [List.nil_append] at heq
  have hmerge : merge_objects_painted objects em =
      some ({ name := "merged", obj_id := 1, vertices := V, triangles := T,
              color := dc,
              transform := ((objects.head?).map (fun o => o.transform)).getD "" },
        objects.flatMap (fun o => List.replicate o.triangles.length (pcOf em de o)),
        de) := by
    simp only [merge_objects_painted, hdc0, hde, heq]
  have hmax : ∀ o ∈ objects,
      colorTotal objects o.color ≤ colorTotal objects dc := by
    intro o ho
    have hoc : o.color ∈ dedupFirst (objects.map fun o => o.color) :=
      (mem_dedupFirst _ _).2 (List.mem_map_of_mem _ ho)
    obtain ⟨j, hj, hjc⟩ := List.mem_iff_getElem.1 hoc
    have := hall j hj
    rw [hjc, hi1] at this
    exact this
  have htie : ∀ o ∈ objects,
      colorTotal objects o.color = colorTotal objects dc →
      idxOf dc (objects.map (fun o => o.color)) ≤
        idxOf o.color (objects.map (fun o => o.color)) := by
    intro o ho htot
    have hoc : o.color ∈ dedupFirst (objects.map fun o => o.color) :=
      (mem_dedupFirst _ _).2 (List.mem_map_of_mem _ ho)
    obtain ⟨j, hj, hjc⟩ := List.mem_iff_getElem.1 hoc
    rcases Nat.lt_trichotomy j i with hji | hji | hji
    · have := hearly j hj hji
      rw [hjc, hi1] at this
      omega
    · subst hji
      rw [hjc] at hi1
      rw [← hi1]
    · have := dedupFirst_idxOf_mono (objects.map fun o => o.color) i j hi hj hji
      rw [hjc, hi1] at this
      omega
  refine ⟨_, _, de, hmerge, hde, hdcmem, hmax, htie, rfl, ?_⟩
  intro o ho s hs
  constructor
  · intro hsde
    refine ⟨?_, encode_pos_ne_empty s (hpos _ _ hs)⟩
    simp [pcOf, hs, hsde]
  · intro hsde
    simp [pcOf, hs, hsde]

theorem C5_default_selection_and_paints_witness :
    ∃ merged paints de,
      merge_objects_painted [wObjA, wObjB] wEm = some (merged, paints, de) ∧
      wEm merged.color = some de ∧
      merged.color ∈ [wObjA, wObjB].map (fun o => o.color) ∧
      (∀ o ∈ [wObjA, wObjB],
        colorTotal [wObjA, wObjB] o.color ≤
          colorTotal [wObjA, wObjB] merged.color) ∧
      (∀ o ∈ [wObjA, wObjB],
        colorTotal [wObjA, wObjB] o.color =
          colorTotal [wObjA, wObjB] merged.color →
        idxOf merged.color ([wObjA, wObjB].map (fun o => o.color)) ≤
          idxOf o.color ([wObjA, wObjB].map (fun o => o.color))) ∧
      paints = [wObjA, wObjB].flatMap
        (fun o => List.replicate o.triangles.length (pcOf wEm de o)) ∧
      (∀ o ∈ [wObjA, wObjB], ∀ s, wEm o.color = some s →
        (s ≠ de → pcOf wEm de o = encode_paint_color s ∧
          encode_paint_color s ≠ "") ∧
        (s = de → pcOf wEm de o = "")) :=
  C5_default_selection_and_paints [wObjA, wObjB] wEm (by simp) (by decide)
    (fun c n h => by
      by_cases h1 : c = "#ff0000"
      · simp [wEm, h1] at h
        omega
      · by_cases h2 : c = "#00ff00"
        · simp [wEm, h1, h2] at h
          omega
        · simp [wEm, h1, h2] at h)

/-- C9: on the empty object sequence, merge_objects_painted does not return a
merged mesh at all: the Python max call raises ValueError on the empty
per-color count dict, modelled here as the none result. -/
theorem C9_merge_empty_fails : ∀ em : ExtruderMap,
    merge_objects_painted [] em = none := fun _ => rfl

/-- ColorMap: mapping from (resource id, index) to a normalized hex color;
a Python dict accessed only through get, modelled as a function. -/
abbrev ColorMap : Type := Nat × Nat → Option String

/-- Normalize a display color to 7 characters: a 9-character RRGGBBAA form
keeps its first 7 characters. -/
def normalizeColor (s : String) : String :=
  if s.length = 9 then s.take 7 else s

/-- The inner enumerate loop of _extract_color_map over the base entries of
one basematerials group. -/
def addBases (resId : Nat) : Nat → List (Option String) → ColorMap → ColorMap
  | _, [], cm => cm
  | i, b :: rest, cm =>
    addBases resId (i + 1) rest
      (fun k => if k = (resId, i) then
        some (normalizeColor (b.getD "#808080")) else cm k)

/-- _extract_color_map from scripts/bambu_3mf.py; later dict assignments win
on key collision. -/
def extract_color_map (bms : List (Nat × List (Option String))) : ColorMap :=
  bms.foldl (fun cm g => addBases g.1 0 g.2 cm) (fun _ => none)

/-- The Python merge of two color dicts: entries of the second win. -/
def cmMerge (ambient sub : ColorMap) : ColorMap :=
  fun k =>
    match sub k with
    | some v => some v
    | none => ambient k

/-- A triangle element as parsed from XML: three vertex indices and an
optional per-triangle color property. -/
structure RawTri where
  v1 : Nat
  v2 : Nat
  v3 : Nat
  pid : Option Nat
  p1 : Option Nat
deriving DecidableEq

/-- A component element: a referenced object id and an optional external
part path. -/
structure CompRef where
  objectid : Nat
  path : Option String
deriving DecidableEq

/-- The body of an object element: either an inline mesh or a components
container (an object with neither behaves as an empty container). -/
inductive ObjContent where
  | mesh (vertices : List Vertex) (triangles : List RawTri)
  | components (comps : List CompRef)
deriving DecidableEq

/-- An object element of one model part. -/
structure RawObject where
  id : Nat
  name : Option String
  pid : Option Nat
  pindex : Option Nat
  content : ObjContent
deriving DecidableEq

/-- One XML model part inside the archive. -/
structure ModelPart where
  basematerials : List (Nat × List (Option String))
  objects : List RawObject
  items : List (Nat × String)
deriving DecidableEq

/-- The zip archive: path to parsed part. -/
abbrev Archive : Type := List (String × ModelPart)

def zfind (zf : Archive) (p : String) : Option ModelPart :=
  (zf.find? (fun e => e.1 = p)).map (fun e => e.2)

/-- Python lstrip of leading slashes. -/
def stripSlash (s : String) : String :=
  String.mk (s.data.dropWhile (fun c => c = '/'))

/-- The per-triangle color voting dict of _parse_mesh, insertion ordered. -/
def triVotes (tris : List RawTri) (cmap : ColorMap) : List (String × Nat) :=
  tris.foldl (fun votes t =>
    match t.pid, t.p1 with
    | some pid, some p1 =>
      match cmap (pid, p1) with
      | some c => bump votes c 1
      | none => votes
    | _, _ => votes) []

/-- _parse_mesh from scripts/bambu_3mf.py: vertices, plain triangle index
triples, and the majority-voted dominant color (none when no votes). -/
def parse_mesh (vertices : List Vertex) (tris : List RawTri) (cmap : ColorMap) :
    List Vertex × List (Nat × Nat × Nat) × Option String :=
  (vertices, tris.map (fun t => (t.v1, t.v2, t.v3)), maxByVal (triVotes tris cmap))

/-- The object-level (pid, pindex) color lookup of the parser. -/
def objColor (o : RawObject) (cmap : ColorMap) : Option String :=
  match o.pid, o.pindex with
  | some p, some i => cmap (p, i)
  | _, _ => none

def isMesh : ObjContent → Bool
  | ObjContent.mesh _ _ => true
  | ObjContent.components _ => false

/-- Build the MeshObject for a mesh-bearing object element, resolving its
color as object-level property, else triangle vote, else the gray default. -/
def mkMeshObject (o : RawObject) (verts : List Vertex) (tris : List RawTri)
    (cmap : ColorMap) : MeshObject :=
  let pm := parse_mesh verts tris cmap
  { name := o.name.getD ("object_" ++ toString o.id),
    obj_id := o.id,
    vertices := pm.1,
    triangles := pm.2.1,
    color := ((objColor o cmap).orElse (fun _ => pm.2.2)).getD "#808080",
    transform := "" }

/-- _parse_sub_model from scripts/bambu_3mf.py: a path missing from the
archive yields zero objects; otherwise the local color map is merged over
the ambient one (local entries win) and the first mesh-bearing object with
the referenced id is returned; a components container with that id is
skipped by the mesh check, so no object is produced for it. -/
def parse_sub_model (zf : Archive) (subPath : String) (refId : Nat)
    (color_map : ColorMap) : List MeshObject :=
  match zfind zf (stripSlash subPath) with
  | none => []
  | some part =>
    let merged := cmMerge color_map (extract_color_map part.basematerials)
    match part.objects.find? (fun o => o.id = refId ∧ isMesh o.content = true) with
    | none => []
    | some o =>
      match o.content with
      | ObjContent.mesh verts tris => [mkMeshObject o verts tris merged]
      | ObjContent.components _ => []

/-- An entry of the all_objects dict: a parsed MeshObject or an unresolved
components element. -/
inductive Entry where
  | meshObj (m : MeshObject)
  | comps (cs : List CompRef)

def entryOf (o : RawObject) (cmap : ColorMap) : Entry :=
  match o.content with
  | ObjContent.mesh verts tris => Entry.meshObj (mkMeshObject o verts tris cmap)
  | ObjContent.components cs => Entry.comps cs

/-- The all_objects dict of parse_input_3mf; later ids overwrite earlier. -/
def buildAllObjects (objs : List RawObject) (cmap : ColorMap) :
    Nat → Option Entry :=
  objs.foldl (fun f o => fun i => if i = o.id then some (entryOf o cmap) else f i)
    (fun _ => none)

/-- A resolved reference: a shared root-part object (Python object identity;
later transform assignments alias it) or a fresh sub-part object. -/
abbrev RRef : Type := Sum Nat MeshObject

/-- _resolve_object from scripts/bambu_3mf.py, with an explicit depth fuel
standing in for the unbounded Python recursion over the assumed-acyclic
reference graph.  A mesh entry resolves to itself; a components container
resolves its children in order: a child with an external path goes through
parse_sub_model against the ambient color map, a pathless child recurses in
the same part. -/
def resolveObject : Nat → Nat → (Nat → Option Entry) → Archive → ColorMap →
    List RRef
  | 0, _, _, _, _ => []
  | fuel + 1, objId, all, zf, cmap =>
    match all objId with
    | none => []
    | some (Entry.meshObj _) => [Sum.inl objId]
    | some (Entry.comps cs) =>
      cs.flatMap (fun c =>
        match c.path with
        | some p => (parse_sub_model zf p c.objectid cmap).map Sum.inr
        | none => resolveObject fuel c.objectid all zf cmap)
termination_by fuel => fuel

/-- Resolution of one component child, as performed inside _resolve_object. -/
def resolveChild (fuel : Nat) (c : CompRef) (all : Nat → Option Entry)
    (zf : Archive) (cmap : ColorMap) : List RRef :=
  match c.path with
  | some p => (parse_sub_model zf p c.objectid cmap).map Sum.inr
  | none => resolveObject fuel c.objectid all zf cmap

lemma resolveObject_comps (fuel objId : Nat) (all : Nat → Option Entry)
    (zf : Archive) (cmap : ColorMap) (cs : List CompRef)
    (h : all objId = some (Entry.comps cs)) :
    resolveObject (fuel + 1) objId all zf cmap =
      cs.flatMap (fun c => resolveChild fuel c all zf cmap) := by
  rw [resolveObject, h]
  rfl

lemma resolveObject_zero (objId : Nat) (all : Nat → Option Entry) (zf : Archive)
    (cmap : ColorMap) : resolveObject 0 objId all zf cmap = [] := by
  rw [resolveObject]

/-- C6 (amended): when a component reference names an external part path that
is not present inside the archive, _parse_sub_model returns zero objects for
that branch; no fatal error is raised and the conversion continues. -/
theorem C6_missing_path_yields_zero (zf : Archive) (p : String) (refId : Nat)
    (cmap : ColorMap) (h : ¬ stripSlash p ∈ zf.map Prod.fst) :
    parse_sub_model zf p refId cmap = [] := by
  have hz : zfind zf (stripSlash p) = none := by
    rw [zfind]
    have hf : zf.find? (fun e => e.1 = stripSlash p) = none := by
      rw [List.find?_eq_none]
      intro e he
      simp only [decide_eq_true_eq]
      intro heq
      exact h (heq ▸ List.mem_map_of_mem Prod.fst he)
    rw [hf]
    rfl
  simp only [parse_sub_model, hz]

/-- A one-part archive used by the resolution examples: a part holding a
single one-triangle mesh object with id 7 and an own material color. -/
def cSub : ModelPart :=
  { basematerials := [(1, [some "#112233"])],
    objects := [{ id := 7, name := some "ok", pid := some 1, pindex := some 0,
                  content := ObjContent.mesh [⟨0, 0, 0⟩, ⟨1, 0, 0⟩, ⟨0, 1, 0⟩]
                    [⟨0, 1, 2, none, none⟩] }],
    items := [] }

def cArchive : Archive := [("3D/ok.model", cSub)]

theorem C6_missing_path_yields_zero_witness :
    ¬ stripSlash "/3D/missing.model" ∈ cArchive.map Prod.fst ∧
    parse_sub_model cArchive "/3D/missing.model" 7 (fun _ => none) = [] :=
  ⟨by decide,
   C6_missing_path_yields_zero cArchive "/3D/missing.model" 7 (fun _ => none)
     (by decide)⟩

/-- C6 counterexample to the claim as stated: resolving a container whose
first child names a missing part path succeeds and simply skips that branch,
while the sibling branch still resolves; nothing aborts. -/
theorem C6_counterexample :
    parse_sub_model cArchive "/3D/gone.model" 7 (fun _ => none) = [] ∧
    resolveObject (1 + 1) 1
      (fun i => if i = 1 then
        some (Entry.comps [⟨7, some "/3D/gone.model"⟩, ⟨7, some "/3D/ok.model"⟩])
        else none)
      cArchive (fun _ => none) =
      (parse_sub_model cArchive "/3D/ok.model" 7 (fun _ => none)).map Sum.inr ∧
    (parse_sub_model cArchive "/3D/ok.model" 7 (fun _ => none)).length = 1 := by
  refine ⟨by decide, ?_, by decide⟩
  rw [resolveObject_comps 1 1 _ cArchive (fun _ => none)
    [⟨7, some "/3D/gone.model"⟩, ⟨7, some "/3D/ok.model"⟩] rfl]
  show resolveChild 1 ⟨7, some "/3D/gone.model"⟩ _ cArchive (fun _ => none) ++
    (resolveChild 1 ⟨7, some "/3D/ok.model"⟩ _ cArchive (fun _ => none) ++ []) = _
  rw [resolveChild, resolveChild]
  decide

/-- C7 (amended): an external-path component whose part is present resolves
the referenced id only to a mesh-bearing object within that sub-part, against
the local color map merged over the ambient one with local entries winning;
a mesh-bearing target yields exactly one MeshObject carrying the sub-part
mesh and the merged-map color. -/
theorem C7_subpart_mesh_resolution (zf : Archive) (p : String) (refId : Nat)
    (cmap : ColorMap) (part : ModelPart) (o : RawObject)
    (verts : List Vertex) (tris : List RawTri)
    (hfind : zfind zf (stripSlash p) = some part)
    (hobj : part.objects.find?
      (fun o => o.id = refId ∧ isMesh o.content = true) = some o)
    (hmesh : o.content = ObjContent.mesh verts tris) :
    parse_sub_model zf p refId cmap =
      [mkMeshObject o verts tris
        (cmMerge cmap (extract_color_map part.basematerials))] ∧
    (mkMeshObject o verts tris
      (cmMerge cmap (extract_color_map part.basematerials))).triangles.length =
      tris.length ∧
    (∀ k v, extract_color_map part.basematerials k = some v →
      cmMerge cmap (extract_color_map part.basematerials) k = some v) ∧
    (∀ k, extract_color_map part.basematerials k = none →
      cmMerge cmap (extract_color_map part.basematerials) k = cmap k) := by
  refine ⟨?_, ?_, ?_, ?_⟩
  · simp only [parse_sub_model, hfind, hobj, hmesh]
  · simp [mkMeshObject, parse_mesh]
  · intro k v hk
    simp [cmMerge, hk]
  · intro k hk
    simp [cmMerge, hk]

/-- A sub-part whose target object id 10 is a two-triangle mesh, with a
local material color overriding the ambient entry for the same key. -/
def c7Obj : RawObject :=
  { id := 10, name := some "target", pid := some 1, pindex := some 0,
    content := ObjContent.mesh [⟨0, 0, 0⟩, ⟨1, 0, 0⟩, ⟨0, 1, 0⟩]
      [⟨0, 1, 2, none, none⟩, ⟨0, 2, 1, none, none⟩] }

def c7Sub : ModelPart :=
  { basematerials := [(1, [some "#112233"])], objects := [c7Obj], items := [] }

def c7Archive : Archive := [("3D/sub.model", c7Sub)]

def c7Ambient : ColorMap := fun k => if k = (1, 0) then some "#aaaaaa" else none

theorem C7_subpart_mesh_resolution_witness :
    parse_sub_model c7Archive "/3D/sub.model" 10 c7Ambient =
      [mkMeshObject c7Obj [⟨0, 0, 0⟩, ⟨1, 0, 0⟩, ⟨0, 1, 0⟩]
        [⟨0, 1, 2, none, none⟩, ⟨0, 2, 1, none, none⟩]
        (cmMerge c7Ambient (extract_color_map c7Sub.basematerials))] ∧
    (mkMeshObject c7Obj [⟨0, 0, 0⟩, ⟨1, 0, 0⟩, ⟨0, 1, 0⟩]
      [⟨0, 1, 2, none, none⟩, ⟨0, 2, 1, none, none⟩]
      (cmMerge c7Ambient (extract_color_map c7Sub.basematerials))).triangles.length
      = 2 ∧
    (mkMeshObject c7Obj [⟨0, 0, 0⟩, ⟨1, 0, 0⟩, ⟨0, 1, 0⟩]
      [⟨0, 1, 2, none, none⟩, ⟨0, 2, 1, none, none⟩]
      (cmMerge c7Ambient (extract_color_map c7Sub.basematerials))).color =
      "#112233" :=
  ⟨(C7_subpart_mesh_resolution c7Archive "/3D/sub.model" 10 c7Ambient c7Sub
      c7Obj _ _ (by decide) (by decide) rfl).1,
   by decide, by decide⟩

/-- A sub-part in which the referenced id 10 is itself a components
container pointing at a local two-triangle mesh with id 11. -/
def c7BadSub : ModelPart :=
  { basematerials := [],
    objects :=
      [{ id := 10, name := none, pid := none, pindex := none,
         content := ObjContent.components [⟨11, none⟩] },
       { id := 11, name := none, pid := none, pindex := none,
         content := ObjContent.mesh [⟨0, 0, 0⟩, ⟨1, 0, 0⟩, ⟨0, 1, 0⟩]
           [⟨0, 1, 2, none, none⟩, ⟨0, 2, 1, none, none⟩] }],
    items := [] }

def c7BadArchive : Archive := [("3D/bad.model", c7BadSub)]

/-- C7 counterexample to the claim as stated: when the referenced object in
the sub-part is a components container, _parse_sub_model does not descend
into its children and the branch yields zero objects, not the resolved
two-triangle child mesh. -/
theorem C7_counterexample :
    parse_sub_model c7BadArchive "/3D/bad.model" 10 (fun _ => none) = [] := by
  decide

/-- C10: resolving a components container is the concatenation of resolving
each child independently, every child receiving the same ambient color map;
a sibling branch observes exactly the resolution it would observe if the
other branches were absent, so descending into a sub-part (which builds a
fresh merged map inside parse_sub_model) never leaks colors across
branches. -/
theorem C10_no_colormap_leakage (fuel objId : Nat) (all : Nat → Option Entry)
    (zf : Archive) (cmap : ColorMap) (cs₁ cs₂ : List CompRef)
    (h : all objId = some (Entry.comps (cs₁ ++ cs₂))) :
    resolveObject (fuel + 1) objId all zf cmap =
      cs₁.flatMap (fun c => resolveChild fuel c all zf cmap) ++
      cs₂.flatMap (fun c => resolveChild fuel c all zf cmap) ∧
    (∀ c ∈ cs₁ ++ cs₂, c.path ≠ none →
      resolveChild fuel c all zf cmap =
        (parse_sub_model zf (c.path.getD "") c.objectid cmap).map Sum.inr) := by
  constructor
  · rw [resolveObject_comps fuel objId all zf cmap _ h, List.flatMap_append]
  · intro c _ hc
    match c, hc with
    | ⟨cid, some p⟩, _ => rfl

def c10All : Nat → Option Entry := fun i =>
  if i = 1 then some (Entry.comps [⟨2, none⟩, ⟨9, none⟩])
  else if i = 2 then
    some (Entry.meshObj
      { name := "m", obj_id := 2, vertices := [⟨0, 0, 0⟩],
        triangles := [], color := "#808080", transform := "" })
  else none

theorem C10_no_colormap_leakage_witness :
    resolveObject (1 + 1) 1 c10All [] (fun _ => none) =
      ([⟨2, none⟩] : List CompRef).flatMap
        (fun c => resolveChild 1 c c10All [] (fun _ => none)) ++
      ([⟨9, none⟩] : List CompRef).flatMap
        (fun c => resolveChild 1 c c10All [] (fun _ => none)) :=
  (C10_no_colormap_leakage 1 1 c10All [] (fun _ => none)
    [⟨2, none⟩] [⟨9, none⟩] rfl).1

/-- The in-place transform assignment loop of parse_input_3mf: setting
mesh_obj.transform mutates the shared root-part object, modelled as an
update of the id-indexed transform store; fresh sub-part objects are not
stored. -/
def setT : (Nat → String) → List RRef → String → (Nat → String)
  | tm, [], _ => tm
  | tm, Sum.inl i :: rest, t => setT (fun j => if j = i then t else tm j) rest t
  | tm, Sum.inr _ :: rest, t => setT tm rest t

/-- The same assignment applied to a fresh sub-part object: its transform
field is simply set. -/
def stampOne (t : String) (r : RRef) : RRef :=
  match r with
  | Sum.inl i => Sum.inl i
  | Sum.inr m => Sum.inr { m with transform := t }

def stampRefs (refs : List RRef) (t : String) : List RRef :=
  refs.map (stampOne t)

/-- The main build-item loop of parse_input_3mf: resolve each item, assign
its transform to every resolved object (mutating shared root objects), and
append the resolved references to build_items. -/
def buildFold (all : Nat → Option Entry) (zf : Archive) (cmap : ColorMap)
    (fuel : Nat) : List (Nat × String) → (Nat → String) × List RRef →
    (Nat → String) × List RRef
  | [], st => st
  | it :: rest, st =>
    buildFold all zf cmap fuel rest
      (setT st.1 (resolveObject fuel it.1 all zf cmap) it.2,
       st.2 ++ stampRefs (resolveObject fuel it.1 all zf cmap) it.2)

/-- Reading one build_items entry at the end of the loop: a shared root
object is read back with its final (last-written) transform. -/
def derefObj (all : Nat → Option Entry) (tm : Nat → String) (r : RRef) :
    Option MeshObject :=
  match r with
  | Sum.inl i =>
    match all i with
    | some (Entry.meshObj m) => some { m with transform := tm i }
    | _ => none
  | Sum.inr m => some m

def rootCmap (root : ModelPart) : ColorMap :=
  extract_color_map root.basematerials

def rootAll (root : ModelPart) : Nat → Option Entry :=
  buildAllObjects root.objects (rootCmap root)

/-- parse_input_3mf from scripts/bambu_3mf.py (resolution and build-item
loop; archive opening and model-path discovery are supplied as the already
parsed root part). -/
def parse_input_3mf (root : ModelPart) (zf : Archive) (fuel : Nat) :
    List MeshObject :=
  (buildFold (rootAll root) zf (rootCmap root) fuel root.items
    ((fun _ => ""), [])).2.filterMap
    (derefObj (rootAll root)
      (buildFold (rootAll root) zf (rootCmap root) fuel root.items
        ((fun _ => ""), [])).1)

/-- Ids of the shared root-part objects among a resolution result. -/
def inlIds (refs : List RRef) : List Nat :=
  refs.filterMap (fun r =>
    match r with
    | Sum.inl i => some i
    | Sum.inr _ => none)

/-- The aliasing-free meaning of one build item: its resolved objects, each
carrying that item transform. -/
def itemObjects (all : Nat → Option Entry) (zf : Archive) (cmap : ColorMap)
    (fuel : Nat) (it : Nat × String) : List MeshObject :=
  (stampRefs (resolveObject fuel it.1 all zf cmap) it.2).filterMap
    (derefObj all (fun _ => it.2))

lemma inlIds_cons_inl (i : Nat) (rest : List RRef) :
    inlIds (Sum.inl i :: rest) = i :: inlIds rest := rfl

lemma inlIds_cons_inr (m : MeshObject) (rest : List RRef) :
    inlIds (Sum.inr m :: rest) = inlIds rest := rfl

lemma setT_get : ∀ (refs : List RRef) (tm : Nat → String) (t : String) (j : Nat),
    setT tm refs t j = if j ∈ inlIds refs then t else tm j
  | [], tm, t, j => by simp [setT, inlIds]
  | Sum.inl i :: rest, tm, t, j => by
    rw [setT, setT_get rest _ t j, inlIds_cons_inl]
    by_cases hj : j ∈ inlIds rest
    · simp [hj]
    · by_cases hij : j = i
      · simp [hj, hij]
      · simp [hj, hij]
  | Sum.inr m :: rest, tm, t, j => by
    rw [setT, setT_get rest tm t j, inlIds_cons_inr]

lemma buildFold_refs (all : Nat → Option Entry) (zf : Archive) (cmap : ColorMap)
    (fuel : Nat) : ∀ (items : List (Nat × String)) (tm : Nat → String)
      (acc : List RRef),
    (buildFold all zf cmap fuel items (tm, acc)).2 =
      acc ++ items.flatMap
        (fun it => stampRefs (resolveObject fuel it.1 all zf cmap) it.2)
  | [], tm, acc => by simp [buildFold]
  | it :: rest, tm, acc => by
    rw [buildFold, buildFold_refs all zf cmap fuel rest _ _]
    simp [List.flatMap_cons, List.append_assoc]

lemma buildFold_tm (all : Nat → Option Entry) (zf : Archive) (cmap : ColorMap)
    (fuel : Nat) : ∀ (items : List (Nat × String)) (tm : Nat → String)
      (acc : List RRef),
    (buildFold all zf cmap fuel items (tm, acc)).1 =
      items.foldl
        (fun f it => setT f (resolveObject fuel it.1 all zf cmap) it.2) tm
  | [], tm, acc => rfl
  | it :: rest, tm, acc => by
    rw [buildFold, buildFold_tm all zf cmap fuel rest _ _, List.foldl_cons]

lemma foldl_setT_untouched (all : Nat → Option Entry) (zf : Archive)
    (cmap : ColorMap) (fuel : Nat) :
    ∀ (items : List (Nat × String)) (tm : Nat → String) (j : Nat),
    (∀ it ∈ items, ¬ j ∈ inlIds (resolveObject fuel it.1 all zf cmap)) →
    items.foldl
      (fun f it => setT f (resolveObject fuel it.1 all zf cmap) it.2) tm j = tm j
  | [], tm, j, _ => rfl
  | it :: rest, tm, j, h => by
    rw [List.foldl_cons, foldl_setT_untouched all zf cmap fuel rest _ j
      (fun b hb => h b (List.mem_cons_of_mem _ hb))]
    rw [setT_get]
    simp [h it (List.mem_cons_self it rest)]

/-- When the build items touch pairwise disjoint root objects, the final
transform of a root object resolved by one item is that item transform. -/
lemma foldl_setT_mem (all : Nat → Option Entry) (zf : Archive)
    (cmap : ColorMap) (fuel : Nat) :
    ∀ (items : List (Nat × String)) (tm : Nat → String) (it₀ : Nat × String)
      (j : Nat),
    it₀ ∈ items →
    j ∈ inlIds (resolveObject fuel it₀.1 all zf cmap) →
    List.Pairwise (fun a b => ∀ i,
      i ∈ inlIds (resolveObject fuel a.1 all zf cmap) →
      ¬ i ∈ inlIds (resolveObject fuel b.1 all zf cmap)) items →
    items.foldl
      (fun f it => setT f (resolveObject fuel it.1 all zf cmap) it.2) tm j = it₀.2
  | [], _, _, _, h, _, _ => absurd h (List.not_mem_nil _)
  | it :: rest, tm, it₀, j, hmem, hj, hpw => by
    rw [List.foldl_cons]
    rw [List.pairwise_cons] at hpw
    rcases List.mem_cons.1 hmem with rfl | hmem'
    · rw [foldl_setT_untouched all zf cmap fuel rest _ j
        (fun b hb => hpw.1 b hb j hj)]
      rw [setT_get]
      simp [hj]
    · exact foldl_setT_mem all zf cmap fuel rest _ it₀ j hmem' hj hpw.2

lemma filterMap_flatMap {α β γ : Type} (l : List α) (g : α → List β)
    (f : β → Option γ) :
    (l.flatMap g).filterMap f = l.flatMap (fun a => (g a).filterMap f) := by
  induction l with
  | nil => rfl
  | cons a l ih => simp [List.flatMap_cons, List.filterMap_append, ih]

lemma filterMap_congr_mem {α β : Type} : ∀ (l : List α) (f g : α → Option β),
    (∀ a ∈ l, f a = g a) → l.filterMap f = l.filterMap g
  | [], _, _, _ => rfl
  | a :: l, f, g, h => by
    rw [List.filterMap_cons, List.filterMap_cons, h a (List.mem_cons_self a l),
      filterMap_congr_mem l f g (fun b hb => h b (List.mem_cons_of_mem _ hb))]

lemma flatMap_congr_mem {α β : Type} : ∀ (l : List α) (f g : α → List β),
    (∀ a ∈ l, f a = g a) → l.flatMap f = l.flatMap g
  | [], _, _, _ => rfl
  | a :: l, f, g, h => by
    rw [List.flatMap_cons, List.flatMap_cons, h a (List.mem_cons_self a l),
      flatMap_congr_mem l f g (fun b hb => h b (List.mem_cons_of_mem _ hb))]

lemma mem_inlIds (refs : List RRef) (i : Nat) (h : Sum.inl i ∈ refs) :
    i ∈ inlIds refs :=
  List.mem_filterMap.2 ⟨Sum.inl i, h, rfl⟩

/-- Reading back stamped references under the final transform store agrees
with the aliasing-free constant-transform reading, provided the store maps
every shared id of this item to the item transform. -/
lemma stamp_deref_eq (all : Nat → Option Entry) (tmF : Nat → String)
    (t : String) (refs : List RRef)
    (ht : ∀ i ∈ inlIds refs, tmF i = t) :
    (stampRefs refs t).filterMap (derefObj all tmF) =
      (stampRefs refs t).filterMap (derefObj all (fun _ => t)) := by
  apply filterMap_congr_mem
  intro x hx
  rw [stampRefs] at hx
  obtain ⟨r, hr, rfl⟩ := List.mem_map.1 hx
  rcases r with i | m
  · have hti : tmF i = t := ht i (mem_inlIds refs i hr)
    show derefObj all tmF (Sum.inl i) = derefObj all (fun _ => t) (Sum.inl i)
    simp only [derefObj]
    rw [hti]
  · rfl

lemma itemObjects_transform (all : Nat → Option Entry) (zf : Archive)
    (cmap : ColorMap) (fuel : Nat) (it : Nat × String) :
    ∀ o ∈ itemObjects all zf cmap fuel it, o.transform = it.2 := by
  intro o ho
  rw [itemObjects] at ho
  obtain ⟨x, hx, hfx⟩ := List.mem_filterMap.1 ho
  rw [stampRefs] at hx
  obtain ⟨r, hr, rfl⟩ := List.mem_map.1 hx
  rcases r with i | m
  · simp only [stampOne, derefObj] at hfx
    split at hfx
    · obtain rfl := Option.some.inj hfx
      rfl
    · exact absurd hfx (by simp)
  · simp only [stampOne, derefObj] at hfx
    obtain rfl := Option.some.inj hfx
    rfl

/-- C8 (amended): the build loop assigns transforms by mutating the shared
resolved objects, so when the build items resolve pairwise disjoint root
objects, every resolved MeshObject in the final sequence carries exactly its
own build item transform; when two items resolve the same root object, both
occurrences end up with the later item transform instead. -/
theorem C8_item_transforms (root : ModelPart) (zf : Archive) (fuel : Nat)
    (hdisj : List.Pairwise (fun a b => ∀ i,
      i ∈ inlIds (resolveObject fuel a.1 (rootAll root) zf (rootCmap root)) →
      ¬ i ∈ inlIds (resolveObject fuel b.1 (rootAll root) zf (rootCmap root)))
      root.items) :
    parse_input_3mf root zf fuel =
      root.items.flatMap
        (fun it => itemObjects (rootAll root) zf (rootCmap root) fuel it) ∧
    (∀ it ∈ root.items,
      ∀ o ∈ itemObjects (rootAll root) zf (rootCmap root) fuel it,
      o.transform = it.2) := by
  refine ⟨?_, fun it _ => itemObjects_transform _ _ _ _ it⟩
  rw [parse_input_3mf, buildFold_refs, buildFold_tm]
  simp only [List.nil_append]
  rw [filterMap_flatMap]
  apply flatMap_congr_mem
  intro it hit
  rw [itemObjects]
  apply stamp_deref_eq
  intro i hi
  exact foldl_setT_mem (rootAll root) zf (rootCmap root) fuel root.items
    (fun _ => "") it i hit hi hdisj

/-- A root part in which two build items reference the same mesh object with
different transforms: the Python loop mutates the one shared object. -/
def c8Root : ModelPart :=
  { basematerials := [],
    objects := [{ id := 1, name := some "x", pid := none, pindex := none,
                  content := ObjContent.mesh [⟨0, 0, 0⟩] [] }],
    items := [(1, "t1"), (1, "t2")] }

lemma resolveObject_one (objId : Nat) (all : Nat → Option Entry)
    (zf : Archive) (cmap : ColorMap) :
    resolveObject 1 objId all zf cmap =
      match all objId with
      | none => []
      | some (Entry.meshObj _) => [Sum.inl objId]
      | some (Entry.comps cs) =>
        cs.flatMap (fun c =>
          match c.path with
          | some p => (parse_sub_model zf p c.objectid cmap).map Sum.inr
          | none => []) := by
  show resolveObject (0 + 1) objId all zf cmap = _
  rw [resolveObject]
  match all objId with
  | none => rfl
  | some (Entry.meshObj m) => rfl
  | some (Entry.comps cs) =>
    apply flatMap_congr_mem
    intro c _
    match c.path with
    | some p => rfl
    | none => exact resolveObject_zero c.objectid all zf cmap

/-- C8 counterexample to the claim as stated: with build items
(1, "t1") and (1, "t2") resolving the same root object, both emitted objects
carry "t2"; the first item's object does not keep "t1". -/
theorem C8_counterexample :
    (parse_input_3mf c8Root [] 1).map (fun o => o.transform) = ["t2", "t2"] ∧
    ¬ (("t2" : String) = "t1") := by
  refine ⟨?_, by decide⟩
  have h1 : resolveObject 1 1 (rootAll c8Root) [] (rootCmap c8Root) =
      [Sum.inl 1] := by
    rw [resolveObject_one]
    rfl
  rw [parse_input_3mf, buildFold_refs, buildFold_tm]
  rw [show c8Root.items = [(1, "t1"), (1, "t2")] from rfl]
  rw [List.foldl_cons, List.foldl_cons, List.foldl_nil,
    List.flatMap_cons, List.flatMap_cons, List.flatMap_nil]
  simp only [h1]
  decide

/-- A root part with two distinct mesh objects, one build item each. -/
def c8RootW : ModelPart :=
  { basematerials := [],
    objects := [{ id := 1, name := some "x", pid := none, pindex := none,
                  content := ObjContent.mesh [⟨0, 0, 0⟩] [] },
                { id := 2, name := some "y", pid := none, pindex := none,
                  content := ObjContent.mesh [⟨0, 0, 0⟩] [] }],
    items := [(1, "t1"), (2, "t2")] }

theorem C8_item_transforms_witness :
    parse_input_3mf c8RootW [] 1 =
      c8RootW.items.flatMap
        (fun it => itemObjects (rootAll c8RootW) [] (rootCmap c8RootW) 1 it) ∧
    (∀ it ∈ c8RootW.items,
      ∀ o ∈ itemObjects (rootAll c8RootW) [] (rootCmap c8RootW) 1 it,
      o.transform = it.2) := by
  have h1 : resolveObject 1 1 (rootAll c8RootW) [] (rootCmap c8RootW) =
      [Sum.inl 1] := by
    rw [resolveObject_one]
    rfl
  have h2 : resolveObject 1 2 (rootAll c8RootW) [] (rootCmap c8RootW) =
      [Sum.inl 2] := by
    rw [resolveObject_one]
    rfl
  apply C8_item_transforms c8RootW [] 1
  rw [show c8RootW.items = [(1, "t1"), (2, "t2")] from rfl]
  refine List.Pairwise.cons ?_ (List.Pairwise.cons ?_ List.Pairwise.nil)
  · intro b hb i hi
    rw [List.mem_singleton] at hb
    subst hb
    have hi' : i ∈ inlIds (resolveObject 1 1 (rootAll c8RootW) []
        (rootCmap c8RootW)) := hi
    rw [h1] at hi'
    have hi1 : i = 1 := by simpa [inlIds] using hi'
    subst hi1
    show ¬ (1 : Nat) ∈ inlIds (resolveObject 1 2 (rootAll c8RootW) []
      (rootCmap c8RootW))
    rw [h2]
    decide
  · intro b hb
    simp at hb

end Bambu
